import Mathlib

/-!
Shallow embedding of the tic-tac-toe game engine of `src/src/App.jsx`.

The React component `App` keeps three pieces of state
(`board : Array(9).fill(null)`, `isXNext : true`, `gameOver : false`),
a pure helper `calculateWinner`, an event handler `handleClick`, a
`resetGame` function, and a status computation performed on every render
(lines 237-250 of `App.jsx`).

JavaScript-array behaviour that matters here is modelled explicitly:
reading out of range yields `undefined` (a falsy value distinct from
`null`), and assigning past the end of an array extends it, filling any
gap with holes.  Cells are therefore `null`, a hole/undefined, or a mark.
-/

inductive Mark where
  | X
  | O
deriving DecidableEq

/-- A JavaScript array slot as `App.jsx` can observe it: `null` (an empty
square), a hole / `undefined` (reading past the end, or an elision created
by assigning far past the end), or a placed mark `'X'`/`'O'`. -/
inductive Cell where
  | null
  | hole
  | mk (m : Mark)
deriving DecidableEq

/-- JavaScript truthiness of a cell: `null` and `undefined` are falsy,
the strings `'X'`/`'O'` are truthy. -/
def truthy : Cell → Bool
  | Cell.mk _ => true
  | _ => false

/-- `squares[i]` in JavaScript: out-of-range reads yield `undefined`
(modelled as `Cell.hole`). -/
def jsGet (l : List Cell) (i : Nat) : Cell :=
  l.getD i Cell.hole

/-- `arr[i] = v` in JavaScript: in range it overwrites; past the end it
extends the array, filling the gap (if any) with holes. -/
def jsSet (l : List Cell) (i : Nat) (v : Cell) : List Cell :=
  if i < l.length then l.set i v
  else l ++ List.replicate (i - l.length) Cell.hole ++ [v]

/-- The test `board.every(square !== null)` (App.jsx lines 207 and 244).
`Array.prototype.every` skips holes, and an `undefined` element satisfies
`square !== null`, so a hole passes the test either way. -/
def everyFilled (l : List Cell) : Bool :=
  l.all fun c => match c with
    | Cell.null => false
    | _ => true

/-- The 8 winning lines of `calculateWinner` (App.jsx lines 107-116), in
source order: three rows, three columns, two diagonals. -/
def lines : List (Nat × Nat × Nat) :=
  [(0, 1, 2), (3, 4, 5), (6, 7, 8),
   (0, 3, 6), (1, 4, 7), (2, 5, 8),
   (0, 4, 8), (2, 4, 6)]

/-- The `for` loop of `calculateWinner` (App.jsx lines 119-129): for each
line `[a,b,c]` in order, if `squares[a] && squares[a] === squares[b] &&
squares[a] === squares[c]`, return `squares[a]`. -/
def winnerLoop (squares : List Cell) : List (Nat × Nat × Nat) → Option Mark
  | [] => none
  | (a, b, c) :: rest =>
    match jsGet squares a with
    | Cell.mk m =>
      if jsGet squares b = Cell.mk m ∧ jsGet squares c = Cell.mk m then some m
      else winnerLoop squares rest
    | _ => winnerLoop squares rest

/-- `calculateWinner` (App.jsx lines 104-131): first line whose three
slots hold the same mark, else `null`. -/
def calculateWinner (squares : List Cell) : Option Mark :=
  winnerLoop squares lines

/-- The three `useState` slots of the `App` component (App.jsx lines
74-80): the board, whose turn it is, and the stored game-over flag. -/
structure GameState where
  board : List Cell
  isXNext : Bool
  gameOver : Bool
deriving DecidableEq

/-- The initial `useState` values (App.jsx lines 74-80): nine `null`
squares, X to move, game not over. -/
def initialState : GameState :=
  { board := List.replicate 9 Cell.null, isXNext := true, gameOver := false }

/-- `resetGame` (App.jsx lines 220-224): sets the board to nine `null`
squares, `isXNext` to `true`, `gameOver` to `false`. -/
def resetGame : GameState :=
  { board := List.replicate 9 Cell.null, isXNext := true, gameOver := false }

/-- The guard clause of `handleClick` (App.jsx line 165):
`board[index] || gameOver || calculateWinner(board)`. -/
def rejects (s : GameState) (index : Nat) : Bool :=
  truthy (jsGet s.board index) || s.gameOver || (calculateWinner s.board).isSome

/-- `handleClick` (App.jsx lines 157-210): if the guard fires, return with
no state change; otherwise copy the board, write the current player's mark
at `index`, flip the turn, and set `gameOver` when the new board has a
winner or is full. -/
def handleClick (index : Nat) (s : GameState) : GameState :=
  if rejects s index then s
  else
    let newBoard := jsSet s.board index (Cell.mk (if s.isXNext then Mark.X else Mark.O))
    { board := newBoard,
      isXNext := !s.isXNext,
      gameOver :=
        if (calculateWinner newBoard).isSome || everyFilled newBoard then true
        else s.gameOver }

/-- The derived game status (App.jsx lines 237-250): the render computes
`winner = calculateWinner(board)` and shows a win message if it is
non-null, else a tie message if the board is full, else whose turn it is. -/
inductive GameStatus where
  | InProgress
  | Won (m : Mark)
  | Tie
deriving DecidableEq

/-- Status derivation of the render (App.jsx lines 237-250): winner first,
then the fullness test, else in progress. -/
def deriveStatus (board : List Cell) : GameStatus :=
  match calculateWinner board with
  | some m => GameStatus.Won m
  | none => if everyFilled board then GameStatus.Tie else GameStatus.InProgress

/-- States reachable from the initial state by `handleClick` at arbitrary
indices and by `resetGame`. -/
inductive Reachable : GameState → Prop where
  | init : Reachable initialState
  | step (i : Nat) {s : GameState} : Reachable s → Reachable (handleClick i s)
  | reset {s : GameState} : Reachable s → Reachable resetGame

/-- States reachable from the initial state when every click index is in
range `0..8` (the only indices the `Square` components ever emit). -/
inductive ReachableIn : GameState → Prop where
  | init : ReachableIn initialState
  | step (i : Nat) {s : GameState} : i < 9 → ReachableIn s → ReachableIn (handleClick i s)
  | reset {s : GameState} : ReachableIn s → ReachableIn resetGame

/-- Folding `handleClick` over a list of clicked indices, starting from a
given state. -/
def playFrom (s : GameState) (moves : List Nat) : GameState :=
  moves.foldl (fun t i => handleClick i t) s

/-- A game played from a fresh board. -/
def play (moves : List Nat) : GameState :=
  playFrom initialState moves

/-- Every click in the list is accepted (the guard of `handleClick` does
not fire) in the state it is played in. -/
def allAccepted : GameState → List Nat → Bool
  | _, [] => true
  | s, i :: rest => !(rejects s i) && allAccepted (handleClick i s) rest

/-- Spec-side reading of one line, following the spec's words: the line
wins "if all three cells are equal and non-Empty", yielding "that mark".
Cells are read as positions of the 9-cell board. -/
def lineWin (board : List Cell) (t : Nat × Nat × Nat) : Option Mark :=
  match board[t.1]?, board[t.2.1]?, board[t.2.2]? with
  | some (Cell.mk m), some cb, some cc =>
    if cb = Cell.mk m ∧ cc = Cell.mk m then some m else none
  | _, _, _ => none

/-- Spec-side winner: the 8 fixed lines are checked in the stated order
and the first matching mark is returned, or none if no line is fully
matched. -/
def winnerSpec (board : List Cell) : Option Mark :=
  lines.findSome? (lineWin board)

/-! ### Helper lemmas -/

/-- Splitting the guard of `handleClick` into its three disjuncts. -/
lemma rejects_eq_false_iff (s : GameState) (i : Nat) :
    rejects s i = false ↔
      truthy (jsGet s.board i) = false ∧ s.gameOver = false ∧
        (calculateWinner s.board).isSome = false := by
  simp [rejects, Bool.or_eq_false_iff, and_assoc]

/-- A rejected click leaves the state untouched. -/
lemma handleClick_rejected {s : GameState} {i : Nat} (h : rejects s i = true) :
    handleClick i s = s := by
  simp [handleClick, h]

/-- An accepted click writes the current mark, flips the turn, and updates
the stored flag from the new board. -/
lemma handleClick_accepted {s : GameState} {i : Nat} (h : rejects s i = false) :
    handleClick i s =
      { board := jsSet s.board i (Cell.mk (if s.isXNext then Mark.X else Mark.O)),
        isXNext := !s.isXNext,
        gameOver :=
          ((calculateWinner
              (jsSet s.board i (Cell.mk (if s.isXNext then Mark.X else Mark.O)))).isSome ||
            everyFilled
              (jsSet s.board i (Cell.mk (if s.isXNext then Mark.X else Mark.O)))) } := by
  have hgo : s.gameOver = false := ((rejects_eq_false_iff s i).mp h).2.1
  simp only [handleClick, h, Bool.false_eq_true, if_false]
  cases hc : ((calculateWinner
      (jsSet s.board i (Cell.mk (if s.isXNext then Mark.X else Mark.O)))).isSome ||
        everyFilled (jsSet s.board i (Cell.mk (if s.isXNext then Mark.X else Mark.O)))) <;>
    simp [hc, hgo]

/-- Writing in range keeps the array length. -/
lemma jsSet_length_of_lt {l : List Cell} {i : Nat} (h : i < l.length) (v : Cell) :
    (jsSet l i v).length = l.length := by
  simp [jsSet, h]

/-- Every in-range-reachable state has a board of exactly 9 cells. -/
lemma reachableIn_board_length {s : GameState} (h : ReachableIn s) :
    s.board.length = 9 := by
  induction h with
  | init => rfl
  | reset => rfl
  | @step i s hlt hs ih =>
    by_cases hr : rejects s i = true
    · rw [handleClick_rejected hr]; exact ih
    · rw [handleClick_accepted (Bool.eq_false_iff.mpr hr)]
      exact (jsSet_length_of_lt (ih ▸ hlt) _).trans ih

/-- In every reachable state (any indices), the stored `gameOver` flag
equals the terminal condition computed from the board: a winner exists or
the board passes the fullness test. -/
lemma reachable_gameOver_sync {s : GameState} (h : Reachable s) :
    s.gameOver = ((calculateWinner s.board).isSome || everyFilled s.board) := by
  induction h with
  | init => decide
  | reset => decide
  | @step i s hs ih =>
    by_cases hr : rejects s i = true
    · rw [handleClick_rejected hr]; exact ih
    · rw [handleClick_accepted (Bool.eq_false_iff.mpr hr)]

/-- The in-range reachable states are reachable. -/
lemma reachableIn_reachable {s : GameState} (h : ReachableIn s) : Reachable s := by
  induction h with
  | init => exact Reachable.init
  | reset => exact Reachable.reset Reachable.init
  | @step i s hlt hs ih => exact Reachable.step i ih

/-- `deriveStatus` reports a terminal status exactly when the board has a
winner or passes the fullness test. -/
lemma deriveStatus_ne_inProgress_iff (b : List Cell) :
    deriveStatus b ≠ GameStatus.InProgress ↔
      ((calculateWinner b).isSome || everyFilled b) = true := by
  unfold deriveStatus
  cases hw : calculateWinner b
  · cases hf : everyFilled b <;> simp [hf]
  · simp

/-- On a hole-free board the fullness test means literally that no cell is
empty. -/
lemma everyFilled_iff_no_null {b : List Cell} (hh : Cell.hole ∉ b) :
    everyFilled b = true ↔ ∀ c ∈ b, c ≠ Cell.null := by
  simp only [everyFilled, List.all_eq_true]
  constructor
  · intro h c hc
    have := h c hc
    cases c <;> simp_all
  · intro h c hc
    have := h c hc
    cases c <;> simp_all

/-- The loop of `calculateWinner` computes the first-match search over
any list of in-bounds lines. -/
lemma winnerLoop_eq_findSome? (L : List (Nat × Nat × Nat)) (board : List Cell)
    (hb : ∀ t ∈ L, t.1 < board.length ∧ t.2.1 < board.length ∧ t.2.2 < board.length) :
    winnerLoop board L = L.findSome? (lineWin board) := by
  induction L with
  | nil => simp [winnerLoop]
  | cons t rest ih =>
    obtain ⟨a, b, c⟩ := t
    obtain ⟨ha, hbb, hcc⟩ := hb (a, b, c) (List.mem_cons_self _ _)
    have ihr := ih fun t ht => hb t (List.mem_cons_of_mem _ ht)
    have ea : jsGet board a = board[a] := List.getD_eq_getElem board Cell.hole ha
    have eb : jsGet board b = board[b] := List.getD_eq_getElem board Cell.hole hbb
    have ec : jsGet board c = board[c] := List.getD_eq_getElem board Cell.hole hcc
    rw [List.findSome?_cons]
    simp only [winnerLoop, lineWin, ea, eb, ec, List.getElem?_eq_getElem, ha, hbb, hcc]
    cases board[a] with
    | mk m =>
      by_cases hmatch : board[b] = Cell.mk m ∧ board[c] = Cell.mk m
      · simp [hmatch]
      · simp [hmatch, ihr]
    | null => simpa using ihr
    | hole => simpa using ihr

/-- On a 9-cell board `calculateWinner` is the spec-side first-match
search over the 8 lines. -/
lemma calculateWinner_eq_winnerSpec {board : List Cell} (h : board.length = 9) :
    calculateWinner board = winnerSpec board := by
  unfold calculateWinner winnerSpec
  refine winnerLoop_eq_findSome? lines board ?_
  have hlt : ∀ t ∈ lines, t.1 < 9 ∧ t.2.1 < 9 ∧ t.2.2 < 9 := by decide
  intro t ht
  rw [h]
  exact hlt t ht

/-- In-range play never creates a hole: every in-range-reachable board
consists of `null` squares and marks only. -/
lemma reachableIn_no_holes {s : GameState} (h : ReachableIn s) :
    Cell.hole ∉ s.board := by
  induction h with
  | init => decide
  | reset => decide
  | @step i s hlt hs ih =>
    by_cases hr : rejects s i = true
    · rw [handleClick_rejected hr]; exact ih
    · rw [handleClick_accepted (Bool.eq_false_iff.mpr hr)]
      intro hmem
      have hilt : i < s.board.length := (reachableIn_board_length hs) ▸ hlt
      simp only [jsSet, hilt, if_true] at hmem
      rcases List.mem_or_eq_of_mem_set hmem with hm | hm
      · exact ih hm
      · simp at hm

/-- Playing one click then a list of clicks. -/
lemma playFrom_cons (s : GameState) (i : Nat) (moves : List Nat) :
    playFrom s (i :: moves) = playFrom (handleClick i s) moves := rfl

/-- A run of accepted clicks flips the turn once per click: the final
turn agrees with the starting turn exactly when the run has even length. -/
lemma playFrom_parity (moves : List Nat) :
    ∀ s : GameState, allAccepted s moves = true →
      (playFrom s moves).isXNext = (s.isXNext == decide (moves.length % 2 = 0)) := by
  induction moves with
  | nil =>
    intro s h
    simp [playFrom]
  | cons i rest ih =>
    intro s h
    simp only [allAccepted, Bool.and_eq_true, Bool.not_eq_true'] at h
    obtain ⟨hacc, hrest⟩ := h
    have hstep : (handleClick i s).isXNext = !s.isXNext := by
      rw [handleClick_accepted hacc]
    have hrec := ih (handleClick i s) hrest
    rw [playFrom_cons, hrec, hstep]
    have h1 : decide ((i :: rest).length % 2 = 0) = decide (¬(rest.length % 2 = 0)) :=
      decide_eq_decide.mpr (by simp only [List.length_cons]; omega)
    rw [h1, decide_not]
    cases s.isXNext <;> cases hd : decide (rest.length % 2 = 0) <;> simp

/-! ### Claims -/

/-- Claim C1, counterexample: the claim says a move at index 9 on a fresh
game is rejected with the board unchanged; in fact `handleClick` has no
index-range check, so the move at index 9 goes through and the board
changes. -/
theorem claim1_counterexample :
    (handleClick 9 initialState).board ≠ initialState.board := by decide

/-- Claim C1, amended: `handleClick` performs no index-range check; its
guard only tests cell occupancy, the `gameOver` flag, and an existing
winner. On a fresh game a move at index 9 is accepted: `X` is written at
index 9, extending the board to 10 cells, the turn flips to O, and the
`gameOver` flag stays false. -/
theorem claim1_index9_accepted :
    handleClick 9 initialState =
      { board := List.replicate 9 Cell.null ++ [Cell.mk Mark.X],
        isXNext := false, gameOver := false } := by decide

/-- Claim C2, counterexample: the claim says every state reachable with
arbitrary integer indices has a 9-cell board; the state reached by a
single click at index 9 is reachable and has a 10-cell board. -/
theorem claim2_counterexample :
    Reachable (handleClick 9 initialState) ∧
      (handleClick 9 initialState).board.length = 10 :=
  ⟨Reachable.step 9 Reachable.init, by decide⟩

/-- Claim C2, amended: for every state reachable from the initial state
by `handleClick` calls at indices 0..8 (the only indices the UI emits)
and `resetGame` calls, the board has exactly 9 cells. -/
theorem claim2_board_length (s : GameState) (h : ReachableIn s) :
    s.board.length = 9 :=
  reachableIn_board_length h

/-- Claim C2, witness. -/
theorem claim2_witness : (handleClick 3 initialState).board.length = 9 :=
  claim2_board_length _ (ReachableIn.step 3 (by decide) ReachableIn.init)

/-- Claim C3: on every 9-cell board `calculateWinner` equals the
spec-side search `winnerSpec`, which checks the 8 fixed lines (rows,
columns, diagonals) in the stated order and returns the mark of the first
line whose three cells are equal and non-empty, or none. -/
theorem claim3_winner_first_match (board : List Cell) (h : board.length = 9) :
    calculateWinner board = winnerSpec board :=
  calculateWinner_eq_winnerSpec h

/-- Claim C3, witness. -/
theorem claim3_witness :
    calculateWinner (play [0, 3, 1, 4, 2]).board =
      winnerSpec (play [0, 3, 1, 4, 2]).board :=
  claim3_winner_first_match _ (by decide)

/-- Claim C4: on any hole-free board the derived status is `Won m` when
the win check yields `m` — regardless of how full the board is — else
`Tie` when no cell is empty, else `InProgress`; `Won` and `Tie` are never
reported simultaneously. -/
theorem claim4_deriveStatus (board : List Cell) (hh : Cell.hole ∉ board) :
    (∀ m, calculateWinner board = some m → deriveStatus board = GameStatus.Won m) ∧
    (calculateWinner board = none → (∀ c ∈ board, c ≠ Cell.null) →
      deriveStatus board = GameStatus.Tie) ∧
    (calculateWinner board = none → (∃ c ∈ board, c = Cell.null) →
      deriveStatus board = GameStatus.InProgress) ∧
    (∀ m, ¬(deriveStatus board = GameStatus.Won m ∧ deriveStatus board = GameStatus.Tie)) := by
  refine ⟨?_, ?_, ?_, ?_⟩
  · intro m hm
    simp [deriveStatus, hm]
  · intro hw hfull
    have hf : everyFilled board = true := (everyFilled_iff_no_null hh).mpr hfull
    simp [deriveStatus, hw, hf]
  · rintro hw ⟨c, hc, hcnull⟩
    have hf : everyFilled board = false := by
      cases hf : everyFilled board
      · rfl
      · exact absurd hcnull ((everyFilled_iff_no_null hh).mp hf c hc)
    simp [deriveStatus, hw, hf]
  · rintro m ⟨h1, h2⟩
    rw [h1] at h2
    exact GameStatus.noConfusion h2

/-- Claim C4, witness: a full board whose top row is all `X` is reported
as `Won X`, not `Tie`. -/
theorem claim4_witness :
    deriveStatus
      [Cell.mk Mark.X, Cell.mk Mark.X, Cell.mk Mark.X,
       Cell.mk Mark.O, Cell.mk Mark.O, Cell.mk Mark.X,
       Cell.mk Mark.X, Cell.mk Mark.O, Cell.mk Mark.O] = GameStatus.Won Mark.X :=
  (claim4_deriveStatus _ (by decide)).1 Mark.X (by decide)

/-- Claim C5: `Won` and `Tie` are terminal. From any in-range-reachable
state whose derived status is not `InProgress`, every `handleClick` call
(at any index whatsoever) is rejected and changes nothing — the code
signals the rejection only by leaving the state unchanged — and
`resetGame` is exactly the fresh initial state, whose status is
`InProgress`. -/
theorem claim5_terminal_absorbing (s : GameState) (hs : ReachableIn s)
    (ht : deriveStatus s.board ≠ GameStatus.InProgress) :
    (∀ i, handleClick i s = s) ∧ resetGame = initialState ∧
      deriveStatus resetGame.board = GameStatus.InProgress := by
  refine ⟨?_, rfl, by decide⟩
  intro i
  have hsync := reachable_gameOver_sync (reachableIn_reachable hs)
  have hcond := (deriveStatus_ne_inProgress_iff s.board).mp ht
  have hgo : s.gameOver = true := hsync.trans hcond
  apply handleClick_rejected
  simp [rejects, hgo]

/-- Claim C5, witness: after X wins the top row, a further click at
index 7 changes nothing. -/
theorem claim5_witness :
    handleClick 7 (play [0, 3, 1, 4, 2]) = play [0, 3, 1, 4, 2] :=
  (claim5_terminal_absorbing _
    (ReachableIn.step 2 (by decide)
      (ReachableIn.step 4 (by decide)
        (ReachableIn.step 1 (by decide)
          (ReachableIn.step 3 (by decide)
            (ReachableIn.step 0 (by decide) ReachableIn.init)))))
    (by decide)).1 7

/-- Claim C6, counterexample: the claim says `handleClick` mutates no
status flag separate from the board; the winning fifth click of the game
`[0,3,1,4,2]` flips the stored `gameOver` flag from `false` to `true`. -/
theorem claim6_counterexample :
    (play [0, 3, 1, 4]).gameOver = false ∧
      (handleClick 2 (play [0, 3, 1, 4])).gameOver = true := by decide

/-- Claim C6, amended: `handleClick` does write a `gameOver` status flag
stored separately from the board; however, the flag written by an
accepted move always equals the terminal condition recomputed from the
new board (winner present or board full), and the rendered `GameStatus`
is re-derived from the board alone by `deriveStatus` on every render. -/
theorem claim6_flag_follows_board (s : GameState) (i : Nat)
    (h : rejects s i = false) :
    (handleClick i s).gameOver =
      ((calculateWinner (handleClick i s).board).isSome ||
        everyFilled (handleClick i s).board) := by
  rw [handleClick_accepted h]

/-- Claim C6, witness. -/
theorem claim6_witness :
    (handleClick 4 initialState).gameOver =
      ((calculateWinner (handleClick 4 initialState).board).isSome ||
        everyFilled (handleClick 4 initialState).board) :=
  claim6_flag_follows_board initialState 4 (by decide)

/-- Claim C7: an accepted move on a 9-cell board yields a board identical
to the input except that cell `i` now holds the mark of the current turn,
and flips the turn. (The embedding is a pure function translated from the
source's copy-then-assign: the input state itself is never mutated.) -/
theorem claim7_move_effect (s : GameState) (i : Nat) (hlen : s.board.length = 9)
    (hi : i < 9) (hacc : rejects s i = false) :
    (handleClick i s).board.length = 9 ∧
    (handleClick i s).board[i]? =
      some (Cell.mk (if s.isXNext then Mark.X else Mark.O)) ∧
    (∀ j, j ≠ i → (handleClick i s).board[j]? = s.board[j]?) ∧
    (handleClick i s).isXNext = !s.isXNext := by
  rw [handleClick_accepted hacc]
  have hilt : i < s.board.length := hlen ▸ hi
  refine ⟨?_, ?_, ?_, rfl⟩
  · simp [jsSet, hilt, hlen, hi]
  · simp [jsSet, hilt, List.getElem?_set]
  · intro j hj
    simp [jsSet, hilt, List.getElem?_set_ne (Ne.symm hj)]

/-- Claim C7, witness. -/
theorem claim7_witness :
    (handleClick 0 initialState).isXNext = !initialState.isXNext :=
  (claim7_move_effect initialState 0 (by decide) (by decide) (by decide)).2.2.2

/-- Claim C8: after `n` accepted clicks from a fresh game the turn is X
exactly when `n` is even — the turn strictly alternates and X moves
first. -/
theorem claim8_turn_alternation (moves : List Nat)
    (h : allAccepted initialState moves = true) :
    (play moves).isXNext = decide (moves.length % 2 = 0) := by
  have hp := playFrom_parity moves initialState h
  simpa [play, initialState] using hp

/-- Claim C8, witness: after three accepted moves it is O's turn. -/
theorem claim8_witness : (play [0, 4, 1]).isXNext = false := by
  have h := claim8_turn_alternation [0, 4, 1] (by decide)
  simpa using h

/-- Claim C9: under in-range play the stored `gameOver` flag never drifts
from the board: it is true exactly when some line of the board is fully
matched (the spec-side winner search succeeds) or every cell is
non-empty. -/
theorem claim9_flag_sync (s : GameState) (h : ReachableIn s) :
    s.gameOver = true ↔
      ((∃ m, winnerSpec s.board = some m) ∨ ∀ c ∈ s.board, c ≠ Cell.null) := by
  have hh := reachableIn_no_holes h
  rw [reachable_gameOver_sync (reachableIn_reachable h),
    calculateWinner_eq_winnerSpec (reachableIn_board_length h), Bool.or_eq_true,
    Option.isSome_iff_exists, everyFilled_iff_no_null hh]

/-- Claim C9, witness: after X completes the top row the flag is set. -/
theorem claim9_witness : (play [0, 3, 1, 4, 2]).gameOver = true :=
  (claim9_flag_sync _
    (ReachableIn.step 2 (by decide)
      (ReachableIn.step 4 (by decide)
        (ReachableIn.step 1 (by decide)
          (ReachableIn.step 3 (by decide)
            (ReachableIn.step 0 (by decide) ReachableIn.init)))))).mpr
    (Or.inl ⟨Mark.X, by decide⟩)

/-- Claim C10: whenever the guard of `handleClick` fires — occupied cell,
`gameOver` flag set, or a winner already on the board — the state comes
back exactly unchanged; the function returns no error value, so the three
rejection causes produce literally the same outcome. -/
theorem claim10_silent_rejection (s : GameState) (i : Nat)
    (h : truthy (jsGet s.board i) = true ∨ s.gameOver = true ∨
      (calculateWinner s.board).isSome = true) :
    handleClick i s = s := by
  apply handleClick_rejected
  rcases h with h | h | h <;> simp [rejects, h]

/-- Claim C10, witness: clicking the occupied cell 0 changes nothing. -/
theorem claim10_witness : handleClick 0 (play [0]) = play [0] :=
  claim10_silent_rejection _ 0 (Or.inl (by decide))
